import Mathlib

/-!
Verification of the Timeline & Effect-Automation Engine of the video-assembler
repository.

The engine lives in `src/App.tsx`, which contains two revisions of the
`TimelineService` class:
* an `EventEmitter`-based revision (lines 176-456), embedded below under the
  `EmitterTimelineService` namespace where its behaviour differs, and
* a `BaseService`-based revision (lines 456-832), embedded below under the
  `TimelineService` namespace; this is the revision the specification's line
  references mostly point at.

The snap resolver `findNearestSnapPoint` comes from
`src/components/timeline/Timeline.tsx` and the keyframe evaluator
`interpolateValue` from `src/components/timeline/KeyframeEditor.tsx`.

Times and numeric parameter values are JavaScript numbers in the source; they
are modelled as rationals (`ℚ`).  JavaScript `Array.prototype.sort` with the
comparators `(a, b) => a.position - b.position` / `(a, b) => a.time - b.time`
is a stable ascending sort; it is modelled by the stable insertion sort
`stableSortBy` below.
-/

/-- Track kind: `'video' | 'audio' | 'subtitle'` (Timeline.interface.ts). -/
inductive TrackType where
  | video
  | audio
  | subtitle
deriving DecidableEq, Repr

/-- Keyframe easing tag (Timeline.interface.ts, `Keyframe.easing`). -/
inductive Easing where
  | linear
  | easeIn
  | easeOut
  | easeInOut
  | bezier
deriving DecidableEq, Repr

/-- Effect parameter value-kind tag (Timeline.interface.ts, `EffectParameter.type`). -/
inductive ParamType where
  | number
  | string
  | boolean
  | color
  | select
  | vector2
  | vector3
deriving DecidableEq, Repr

/-- A dynamically typed parameter / keyframe value
(`number | string | boolean | Record<string, unknown>` in the source). -/
inductive Value where
  | num (q : ℚ)
  | str (s : String)
  | bool (b : Bool)
deriving DecidableEq, Repr

/-- Numeric view of a `Value`, mirroring the `as number` casts in
`KeyframeEditor.tsx`; a non-numeric value used in arithmetic yields NaN in
JavaScript, modelled as `none`. -/
def Value.asNum : Value → Option ℚ
  | .num q => some q
  | _ => none

/-- `Keyframe` (Timeline.interface.ts). -/
structure Keyframe where
  id : String
  time : ℚ
  value : Value
  easing : Easing
deriving DecidableEq, Repr

/-- `EffectParameter` (Timeline.interface.ts). -/
structure EffectParameter where
  id : String
  name : String
  type : ParamType
  value : Value
  default : Value
  min : Option ℚ
  max : Option ℚ
  keyframes : List Keyframe
deriving DecidableEq, Repr

/-- `TimelineEffect` (Timeline.interface.ts); the `category`/`previewUrl`
fields play no role in any verified operation and are omitted. -/
structure TimelineEffect where
  id : String
  type : String
  name : String
  startTime : ℚ
  endTime : ℚ
  parameters : List EffectParameter
  enabled : Bool
deriving DecidableEq, Repr

/-- `VideoSegment` (Video.interface.ts): source media reference. -/
structure VideoSegment where
  id : String
  filePath : String
  startTime : ℚ
  endTime : ℚ
  duration : ℚ
deriving DecidableEq, Repr

/-- `TimelineSegment` (Timeline.interface.ts).  The optional boolean flags
(`selected?`, `locked?`) are modelled as `Bool` (JavaScript `undefined` is
falsy). -/
structure TimelineSegment where
  id : String
  filePath : String
  startTime : ℚ
  endTime : ℚ
  trackId : String
  position : ℚ
  duration : ℚ
  selected : Bool
  locked : Bool
  effects : List TimelineEffect
deriving DecidableEq, Repr

/-- `TimelineTrack` (Timeline.interface.ts). -/
structure TimelineTrack where
  id : String
  type : TrackType
  name : String
  height : ℚ
  segments : List TimelineSegment
  muted : Bool
  solo : Bool
  locked : Bool
  effects : List TimelineEffect
deriving DecidableEq, Repr

/-- `TimelineState` (Timeline.interface.ts / the `BaseService` revision's
constructor).  The viewport, effect-template and history fields are not
touched by any verified operation and are omitted. -/
structure TimelineState where
  tracks : List TimelineTrack
  duration : ℚ
  zoom : ℚ
  playhead : ℚ
  selection : List String
  inPoint : Option ℚ
  outPoint : Option ℚ
  snapEnabled : Bool
  snapTolerance : ℚ
  thumbnailsEnabled : Bool
  waveformsEnabled : Bool
deriving DecidableEq, Repr

/-- The state built by the `TimelineService` constructor (App.tsx 492-512). -/
def initialState : TimelineState where
  tracks := []
  duration := 0
  zoom := 1
  playhead := 0
  selection := []
  inPoint := none
  outPoint := none
  snapEnabled := true
  snapTolerance := 5
  thumbnailsEnabled := true
  waveformsEnabled := true

/-- Insert `a` into `l` after every element `b` with `le b a`; the building
block of the stable insertion sort. -/
def insertByLe (le : α → α → Bool) (a : α) : List α → List α
  | [] => [a]
  | b :: bs => if le b a then b :: insertByLe le a bs else a :: b :: bs

/-- Stable ascending sort, modelling JavaScript `Array.prototype.sort` with a
numeric-difference comparator: elements comparing equal keep their original
relative order. -/
def stableSortBy (le : α → α → Bool) (l : List α) : List α :=
  l.foldl (fun acc a => insertByLe le a acc) []

/-- Segment order used by `track.segments.sort((a, b) => a.position - b.position)`. -/
def posLe (a b : TimelineSegment) : Bool := a.position ≤ b.position

/-- Keyframe order used by `parameter.keyframes.sort((a, b) => a.time - b.time)`. -/
def timeLe (a b : Keyframe) : Bool := a.time ≤ b.time

/-- The `position + duration` end times of all segments of all tracks. -/
def segmentEnds (tracks : List TimelineTrack) : List ℚ :=
  tracks.flatMap fun track => track.segments.map fun s => s.position + s.duration

namespace TimelineService

/-- `updateDuration` (App.tsx 788-800): recomputes
`Math.max(0, ...ends)`; the value-equality guard only controls event emission,
the stored duration is the recomputed maximum either way. -/
def updateDuration (st : TimelineState) : TimelineState :=
  { st with duration := (segmentEnds st.tracks).foldl max 0 }

/-- `createTrack` (App.tsx 550-563).  The generated
`track-${Date.now()}-{random}` id is nondeterministic and is taken as the
argument `id`. -/
def createTrack (id : String) (type : TrackType) (st : TimelineState) : TimelineState :=
  let name := match type with
    | .video => "Video Track"
    | .audio => "Audio Track"
    | .subtitle => "Subtitle Track"
  let track : TimelineTrack :=
    { id := id, type := type, name := name, height := 80, segments := []
      muted := false, solo := false, locked := false, effects := [] }
  { st with tracks := st.tracks ++ [track] }

/-- `removeTrack` (App.tsx 573-580): if a track with the id exists, keep only
tracks with a different id and recompute the duration; otherwise no-op. -/
def removeTrack (trackId : String) (st : TimelineState) : TimelineState :=
  if st.tracks.any fun t => t.id = trackId then
    updateDuration { st with tracks := st.tracks.filter fun t => ¬ t.id = trackId }
  else st

/-- The `TimelineSegment` built by `addSegment` (App.tsx 588-598);
`segment.duration || 0` on a number is the identity (`0 || 0` is `0`). -/
def mkTimelineSegment (trackId : String) (segment : VideoSegment) (position : ℚ) :
    TimelineSegment where
  id := segment.id
  filePath := segment.filePath
  startTime := segment.startTime
  endTime := segment.endTime
  trackId := trackId
  position := position
  duration := segment.duration
  selected := false
  locked := false
  effects := []

/-- `addSegment` (App.tsx 582-607): pushes the new segment onto the named
track, re-sorts that track's segments by position, recomputes the duration.
When the track does not exist the source throws `TRACK_NOT_FOUND` before any
mutation; the state is returned unchanged in that case. -/
def addSegment (trackId : String) (segment : VideoSegment) (position : ℚ)
    (st : TimelineState) : TimelineState :=
  if st.tracks.any fun t => t.id = trackId then
    updateDuration
      { st with
        tracks := st.tracks.map fun t =>
          if t.id = trackId then
            { t with segments :=
                stableSortBy posLe (t.segments ++ [mkTimelineSegment trackId segment position]) }
          else t }
  else st

/-- Inner part of `removeSegment` (App.tsx 609-619): acts on the first track
with the given id; `Bool` records whether a segment was actually removed. -/
def removeSegInTracks (trackId segmentId : String) :
    List TimelineTrack → List TimelineTrack × Bool
  | [] => ([], false)
  | t :: ts =>
    if t.id = trackId then
      if t.segments.any fun s => s.id = segmentId then
        (({ t with segments := t.segments.filter fun s => ¬ s.id = segmentId }) :: ts, true)
      else (t :: ts, false)
    else
      let (ts', hit) := removeSegInTracks trackId segmentId ts
      (t :: ts', hit)

/-- `removeSegment` (App.tsx 609-619): no-op unless both ids resolve;
otherwise removes the segment and recomputes the duration. -/
def removeSegment (trackId segmentId : String) (st : TimelineState) : TimelineState :=
  let (ts, hit) := removeSegInTracks trackId segmentId st.tracks
  if hit then updateDuration { st with tracks := ts } else st

/-- Sets the position of the first segment with the given id
(`track.segments.find` followed by an in-place assignment). -/
def setPosFirst (segmentId : String) (newPosition : ℚ) :
    List TimelineSegment → List TimelineSegment
  | [] => []
  | s :: ss =>
    if s.id = segmentId then { s with position := newPosition } :: ss
    else s :: setPosFirst segmentId newPosition ss

/-- Inner part of `moveSegment` (App.tsx 621-632): the loop over tracks stops
(`break`) at the first track containing the segment. -/
def moveSegInTracks (segmentId : String) (newPosition : ℚ) :
    List TimelineTrack → List TimelineTrack × Bool
  | [] => ([], false)
  | t :: ts =>
    if t.segments.any fun s => s.id = segmentId then
      (({ t with segments := stableSortBy posLe (setPosFirst segmentId newPosition t.segments) }) :: ts,
        true)
    else
      let (ts', hit) := moveSegInTracks segmentId newPosition ts
      (t :: ts', hit)

/-- `moveSegment` (App.tsx 621-632): finds the segment across all tracks
(first match), stores `newPosition` as given (no clamping, no `locked` check),
re-sorts the track and recomputes the duration. -/
def moveSegment (segmentId : String) (newPosition : ℚ) (st : TimelineState) : TimelineState :=
  let (ts, hit) := moveSegInTracks segmentId newPosition st.tracks
  if hit then updateDuration { st with tracks := ts } else st

/-- `setPlayhead` (App.tsx 719-722): stores `Math.max(0, Math.min(position, duration))`. -/
def setPlayhead (position : ℚ) (st : TimelineState) : TimelineState :=
  { st with playhead := max 0 (min position st.duration) }

/-- `setZoom` (App.tsx 724-727): stores `Math.max(0.1, Math.min(zoom, 10))`. -/
def setZoom (zoom : ℚ) (st : TimelineState) : TimelineState :=
  { st with zoom := max (1/10) (min zoom 10) }

/-- `setInOutPoints` (App.tsx 729-733): stores both values as given. -/
def setInOutPoints (inPoint outPoint : Option ℚ) (st : TimelineState) : TimelineState :=
  { st with inPoint := inPoint, outPoint := outPoint }

/-- `setSelection` (App.tsx 735-738): replaces the stored selection; the
segments' `selected` flags are not touched by this revision. -/
def setSelection (segmentIds : List String) (st : TimelineState) : TimelineState :=
  { st with selection := segmentIds }

/-- `getSegmentsAtTime` (App.tsx 764-770). -/
def getSegmentsAtTime (st : TimelineState) (time : ℚ) : List TimelineSegment :=
  st.tracks.flatMap fun track =>
    track.segments.filter fun s =>
      decide (s.position ≤ time ∧ time < s.position + s.duration)

/-- `getTracksByType` (App.tsx 772-774). -/
def getTracksByType (type : TrackType) (st : TimelineState) : List TimelineTrack :=
  st.tracks.filter fun t => t.type = type

/-- Replaces the `value` of the first parameter with the given id
(`effect.parameters.find` followed by `parameter.value = value`). -/
def setValueFirst (parameterId : String) (value : Value) :
    List EffectParameter → List EffectParameter
  | [] => []
  | p :: ps =>
    if p.id = parameterId then { p with value := value } :: ps
    else p :: setValueFirst parameterId value ps

/-- Applies `f` to the first effect with the given id
(`segment.effects?.find(e => e.id === effectId)`). -/
def mapFirstEffect (f : TimelineEffect → TimelineEffect) (effectId : String) :
    List TimelineEffect → List TimelineEffect
  | [] => []
  | e :: es => if e.id = effectId then f e :: es else e :: mapFirstEffect f effectId es

/-- Inner loop shared by `updateEffectParameter` / `addEffectKeyframe` /
`removeEffectKeyframe`: the first segment whose effects contain the id gets
its first matching effect rewritten by `f`, and the loop returns. -/
def updateEffectInSegs (f : TimelineEffect → TimelineEffect) (effectId : String) :
    List TimelineSegment → List TimelineSegment × Bool
  | [] => ([], false)
  | s :: ss =>
    if s.effects.any fun e => e.id = effectId then
      (({ s with effects := mapFirstEffect f effectId s.effects }) :: ss, true)
    else
      let (ss', hit) := updateEffectInSegs f effectId ss
      (s :: ss', hit)

/-- Outer loop shared by the effect-parameter operations: tracks are scanned
in order and the scan stops (`return`) at the first hit. -/
def updateEffectInTracks (f : TimelineEffect → TimelineEffect) (effectId : String) :
    List TimelineTrack → List TimelineTrack × Bool
  | [] => ([], false)
  | t :: ts =>
    let (segs, hit) := updateEffectInSegs f effectId t.segments
    if hit then (({ t with segments := segs }) :: ts, true)
    else
      let (ts', hit') := updateEffectInTracks f effectId ts
      (t :: ts', hit')

/-- `updateEffectParameter` (App.tsx 663-677): locates the first effect with
`effectId` across all tracks and segments and assigns `value` verbatim to its
first parameter with `parameterId`.  There is no type check against the
parameter's kind and no clamping against `min`/`max`. -/
def updateEffectParameter (effectId parameterId : String) (value : Value)
    (st : TimelineState) : TimelineState :=
  let (ts, hit) :=
    updateEffectInTracks
      (fun e => { e with parameters := setValueFirst parameterId value e.parameters })
      effectId st.tracks
  if hit then { st with tracks := ts } else st

/-- Appends `kf` to the keyframe list of the first parameter with the given id
and re-sorts the list by time (App.tsx 684-694). -/
def addKfFirst (parameterId : String) (kf : Keyframe) :
    List EffectParameter → List EffectParameter
  | [] => []
  | p :: ps =>
    if p.id = parameterId then
      { p with keyframes := stableSortBy timeLe (p.keyframes ++ [kf]) } :: ps
    else p :: addKfFirst parameterId kf ps

/-- `addEffectKeyframe` (App.tsx 679-701): builds a keyframe whose `easing`
is always `'linear'`, pushes it onto the parameter's keyframe list and
re-sorts by time.  The generated `keyframe-...` id is nondeterministic and is
taken as the argument `kfId`. -/
def addEffectKeyframe (effectId parameterId : String) (time : ℚ) (value : Value)
    (kfId : String) (st : TimelineState) : TimelineState :=
  let kf : Keyframe := { id := kfId, time := time, value := value, easing := .linear }
  let (ts, hit) :=
    updateEffectInTracks
      (fun e => { e with parameters := addKfFirst parameterId kf e.parameters })
      effectId st.tracks
  if hit then { st with tracks := ts } else st

end TimelineService

namespace EmitterTimelineService

/-- `moveSegment` of the `EventEmitter` revision (App.tsx 315-326): identical
to the `BaseService` revision except that the stored position is
`Math.max(0, newPosition)`.  Neither revision checks the `locked` flag. -/
def moveSegment (segmentId : String) (newPosition : ℚ) (st : TimelineState) : TimelineState :=
  let (ts, hit) := TimelineService.moveSegInTracks segmentId (max 0 newPosition) st.tracks
  if hit then TimelineService.updateDuration { st with tracks := ts } else st

/-- First pass of the `EventEmitter` revision's `setSelection`
(App.tsx 398-403): every segment's `selected` flag is cleared. -/
def clearSelectedFlags (tracks : List TimelineTrack) : List TimelineTrack :=
  tracks.map fun t =>
    { t with segments := t.segments.map fun s => { s with selected := false } }

/-- Second pass of the `EventEmitter` revision's `setSelection`
(App.tsx 405-412): segments whose id is in the list are marked selected. -/
def markSelectedFlags (segmentIds : List String) (tracks : List TimelineTrack) :
    List TimelineTrack :=
  tracks.map fun t =>
    { t with segments := t.segments.map fun s =>
        if segmentIds.contains s.id then { s with selected := true } else s }

/-- `setSelection` of the `EventEmitter` revision (App.tsx 397-416): clears
all `selected` flags, marks the listed segments, stores the selection. -/
def setSelection (segmentIds : List String) (st : TimelineState) : TimelineState :=
  { st with
    tracks := markSelectedFlags segmentIds (clearSelectedFlags st.tracks)
    selection := segmentIds }

end EmitterTimelineService

/-- Truthiness filter applied to `inPoint`/`outPoint` by
`if (timelineState.inPoint) snapPoints.push(timelineState.inPoint)`
(Timeline.tsx 92-93): an unset point contributes nothing, and so does the
value `0`, which is falsy in JavaScript. -/
def truthyPoint : Option ℚ → List ℚ
  | some p => if p = 0 then [] else [p]
  | none => []

/-- The snap-point list built by `findNearestSnapPoint` (Timeline.tsx 81-93),
in push order: each segment's `position` and `position + duration` across all
tracks, then the playhead, then the truthy in/out points. -/
def snapPointsOf (st : TimelineState) : List ℚ :=
  (st.tracks.flatMap fun t => t.segments.flatMap fun s => [s.position, s.position + s.duration])
    ++ [st.playhead] ++ truthyPoint st.inPoint ++ truthyPoint st.outPoint

/-- The tolerance in seconds (Timeline.tsx 96): `snapTolerance` pixels divided
by `PIXELS_PER_SECOND * zoom` with `PIXELS_PER_SECOND = 50`. -/
def snapToleranceSeconds (st : TimelineState) : ℚ :=
  st.snapTolerance / (50 * st.zoom)

/-- One iteration of the `snapPoints.forEach` loop (Timeline.tsx 100-107);
the accumulator is `(minDistance, nearestPoint)`. -/
def snapStep (time : ℚ) (acc : ℚ × ℚ) (point : ℚ) : ℚ × ℚ :=
  if |point - time| < acc.1 then (|point - time|, point) else acc

/-- `findNearestSnapPoint` (Timeline.tsx 78-110). -/
def findNearestSnapPoint (st : TimelineState) (time : ℚ) : ℚ :=
  if st.snapEnabled then
    ((snapPointsOf st).foldl (snapStep time) (snapToleranceSeconds st, time)).2
  else time

/-- The easing formulas of `interpolateValue` (KeyframeEditor.tsx 127-136);
the `default` branch (taken for `linear`, `bezier` and a missing tag) is
plain linear interpolation. -/
def applyEasing (e : Easing) (v1 v2 t : ℚ) : ℚ :=
  match e with
  | .easeIn => v1 + (v2 - v1) * t ^ 2
  | .easeOut => v1 + (v2 - v1) * (1 - (1 - t) ^ 2)
  | .easeInOut => v1 + (v2 - v1) * (if t < 1/2 then 2 * t * t else 1 - (-2 * t + 2) ^ 2 / 2)
  | _ => v1 + (v2 - v1) * t

/-- `interpolateValue` (KeyframeEditor.tsx 111-137).  The function receives
only the keyframe list; with an empty list it returns
`sortedKeyframes[length - 1]?.value`, i.e. `undefined`, modelled as `none`.
The two boundary branches return the keyframe's stored value unchanged; the
bracketing branch performs numeric arithmetic (`none` models the NaN produced
from a non-numeric operand). -/
def interpolateValue (keyframes : List Keyframe) (time : ℚ) : Option Value :=
  let sorted := stableSortBy timeLe keyframes
  match sorted.findIdx? fun k => time < k.time with
  | none => sorted.getLast?.map fun k => k.value
  | some 0 => sorted.head?.map fun k => k.value
  | some (n + 1) =>
    match sorted[n]?, sorted[n + 1]? with
    | some k1, some k2 =>
      let t := (time - k1.time) / (k2.time - k1.time)
      match k1.value.asNum, k2.value.asNum with
      | some v1, some v2 => some (.num (applyEasing k1.easing v1 v2 t))
      | _, _ => none
    | _, _ => none

/-- The five structural mutation operations quantified over by the duration
invariant, as a deep-embedded alphabet of calls. -/
inductive TimelineOp where
  | createTrack (id : String) (type : TrackType)
  | removeTrack (trackId : String)
  | addSegment (trackId : String) (segment : VideoSegment) (position : ℚ)
  | removeSegment (trackId segmentId : String)
  | moveSegment (segmentId : String) (newPosition : ℚ)
deriving Repr

/-- Dispatch of one public mutation call. -/
def applyOp (st : TimelineState) : TimelineOp → TimelineState
  | .createTrack id type => TimelineService.createTrack id type st
  | .removeTrack trackId => TimelineService.removeTrack trackId st
  | .addSegment trackId segment position => TimelineService.addSegment trackId segment position st
  | .removeSegment trackId segmentId => TimelineService.removeSegment trackId segmentId st
  | .moveSegment segmentId newPosition => TimelineService.moveSegment segmentId newPosition st

/-- A whole call sequence, applied left to right. -/
def applyOps (ops : List TimelineOp) (st : TimelineState) : TimelineState :=
  ops.foldl applyOp st

/-- All segments of all tracks, in track order. -/
def allSegments (st : TimelineState) : List TimelineSegment :=
  st.tracks.flatMap fun t => t.segments

/-- All keyframes stored anywhere in the state. -/
def allKeyframes (st : TimelineState) : List Keyframe :=
  st.tracks.flatMap fun t => t.segments.flatMap fun s =>
    s.effects.flatMap fun e => e.parameters.flatMap fun p => p.keyframes

/-- Mirror of the segment lookup performed by `moveSegment`: the first
matching segment of the first track containing one. -/
def findSegInTracks (segmentId : String) : List TimelineTrack → Option TimelineSegment
  | [] => none
  | t :: ts =>
    match t.segments.find? fun s => s.id = segmentId with
    | some s => some s
    | none => findSegInTracks segmentId ts

/-- Mirror of the effect lookup performed by the effect-parameter operations:
the first matching effect of the first segment containing one, in track
order. -/
def findEffectInSegs (effectId : String) : List TimelineSegment → Option TimelineEffect
  | [] => none
  | s :: ss =>
    match s.effects.find? fun e => e.id = effectId with
    | some e => some e
    | none => findEffectInSegs effectId ss

/-- Effect lookup across all tracks, stopping at the first hit. -/
def findEffectInTracks (effectId : String) : List TimelineTrack → Option TimelineEffect
  | [] => none
  | t :: ts =>
    match findEffectInSegs effectId t.segments with
    | some e => some e
    | none => findEffectInTracks effectId ts

/-- The parameter `updateEffectParameter effectId parameterId` acts on, when
both lookups succeed. -/
def findFirstParam (effectId parameterId : String) (st : TimelineState) :
    Option EffectParameter :=
  (findEffectInTracks effectId st.tracks).bind fun e =>
    e.parameters.find? fun p => p.id = parameterId

/-- The keyframe list of the addressed parameter, when it exists. -/
def keyframesOf (effectId parameterId : String) (st : TimelineState) :
    Option (List Keyframe) :=
  (findFirstParam effectId parameterId st).map fun p => p.keyframes

/-! ### Concrete fixtures used by counterexamples and witnesses -/

/-- A two-second source clip. -/
def sampleClip : VideoSegment :=
  { id := "c1", filePath := "clip.mp4", startTime := 0, endTime := 2, duration := 2 }

/-- A ten-second source clip. -/
def sampleClip10 : VideoSegment :=
  { id := "c1", filePath := "clip.mp4", startTime := 0, endTime := 10, duration := 10 }

/-- A video track holding the given segments. -/
def videoTrack (segs : List TimelineSegment) : TimelineTrack :=
  { id := "t1", type := .video, name := "Video Track", height := 80, segments := segs
    muted := false, solo := false, locked := false, effects := [] }

/-- A five-second locked segment sitting at position 0. -/
def lockedSeg : TimelineSegment :=
  { id := "s1", filePath := "clip.mp4", startTime := 0, endTime := 5, trackId := "t1"
    position := 0, duration := 5, selected := false, locked := true, effects := [] }

/-- A state whose only segment is locked. -/
def lockedFixtureState : TimelineState :=
  { initialState with tracks := [videoTrack [lockedSeg]] }

/-! ### C1: the duration invariant -/

/-- The duration stored after any one public mutation call equals
`Math.max(0, ...ends)` over the resulting tracks, provided it did before. -/
theorem duration_inv_applyOp (st : TimelineState) (op : TimelineOp)
    (h : st.duration = (segmentEnds st.tracks).foldl max 0) :
    (applyOp st op).duration = (segmentEnds (applyOp st op).tracks).foldl max 0 := by
  cases op with
  | createTrack id type =>
    simp only [applyOp, TimelineService.createTrack]
    rw [h]
    simp [segmentEnds]
  | removeTrack trackId =>
    simp only [applyOp, TimelineService.removeTrack]
    split
    · simp [TimelineService.updateDuration]
    · exact h
  | addSegment trackId segment position =>
    simp only [applyOp, TimelineService.addSegment]
    split
    · simp [TimelineService.updateDuration]
    · exact h
  | removeSegment trackId segmentId =>
    rcases hE : TimelineService.removeSegInTracks trackId segmentId st.tracks with ⟨ts, hit⟩
    simp only [applyOp, TimelineService.removeSegment, hE]
    cases hit with
    | true => simp [TimelineService.updateDuration]
    | false => simpa using h
  | moveSegment segmentId newPosition =>
    rcases hE : TimelineService.moveSegInTracks segmentId newPosition st.tracks with ⟨ts, hit⟩
    simp only [applyOp, TimelineService.moveSegment, hE]
    cases hit with
    | true => simp [TimelineService.updateDuration]
    | false => simpa using h

/-- The duration invariant is preserved by whole call sequences. -/
theorem duration_inv_applyOps (ops : List TimelineOp) (st : TimelineState)
    (h : st.duration = (segmentEnds st.tracks).foldl max 0) :
    (applyOps ops st).duration = (segmentEnds (applyOps ops st).tracks).foldl max 0 := by
  induction ops generalizing st with
  | nil => exact h
  | cons op ops ih =>
    exact ih (applyOp st op) (duration_inv_applyOp st op h)

/-- `List.foldl max` starting from `a` dominates `a` and every list element. -/
theorem foldl_max_is_ub (l : List ℚ) (a : ℚ) :
    a ≤ l.foldl max a ∧ ∀ q ∈ l, q ≤ l.foldl max a := by
  induction l generalizing a with
  | nil => exact ⟨le_refl a, by simp⟩
  | cons q l ih =>
    obtain ⟨h1, h2⟩ := ih (max a q)
    refine ⟨le_trans (le_max_left a q) h1, ?_⟩
    intro q' hq'
    rcases List.mem_cons.mp hq' with rfl | hmem
    · exact le_trans (le_max_right a q') h1
    · exact h2 q' hmem

/-- `List.foldl max` starting from `a` is either `a` or a list element. -/
theorem foldl_max_mem (l : List ℚ) (a : ℚ) :
    l.foldl max a = a ∨ l.foldl max a ∈ l := by
  induction l generalizing a with
  | nil => exact Or.inl rfl
  | cons q l ih =>
    rcases ih (max a q) with h | h
    · rcases max_choice a q with hm | hm
      · exact Or.inl (by rw [List.foldl_cons, h, hm])
      · exact Or.inr (by rw [List.foldl_cons, h, hm]; exact List.mem_cons_self q l)
    · exact Or.inr (List.mem_cons_of_mem q h)

/-- C1: for every sequence of the public mutation operations `createTrack`,
`removeTrack`, `addSegment`, `removeSegment`, `moveSegment` applied from the
engine's initial state, the stored `duration` is the maximum of `0` and every
segment's `position + duration`: it dominates every segment end, is itself
either `0` or one of the segment ends, and is never negative (so it equals
the claimed maximum of the segment ends whenever that maximum is
nonnegative, and equals `0` when no segments exist). -/
theorem timeline_duration_invariant (ops : List TimelineOp) :
    (∀ q ∈ segmentEnds (applyOps ops initialState).tracks,
        q ≤ (applyOps ops initialState).duration) ∧
    ((applyOps ops initialState).duration = 0 ∨
      (applyOps ops initialState).duration ∈ segmentEnds (applyOps ops initialState).tracks) ∧
    0 ≤ (applyOps ops initialState).duration := by
  have h := duration_inv_applyOps ops initialState (by simp [initialState, segmentEnds])
  have hub := foldl_max_is_ub (segmentEnds (applyOps ops initialState).tracks) 0
  have hmem := foldl_max_mem (segmentEnds (applyOps ops initialState).tracks) 0
  rw [h]
  exact ⟨hub.2, hmem, hub.1⟩

/-- C1 witness: the invariant instantiated on a concrete two-call sequence. -/
theorem timeline_duration_invariant_witness :
    (∀ q ∈ segmentEnds (applyOps [TimelineOp.createTrack "t1" TrackType.video,
        TimelineOp.addSegment "t1" sampleClip10 0] initialState).tracks,
        q ≤ (applyOps [TimelineOp.createTrack "t1" TrackType.video,
        TimelineOp.addSegment "t1" sampleClip10 0] initialState).duration) ∧
    ((applyOps [TimelineOp.createTrack "t1" TrackType.video,
        TimelineOp.addSegment "t1" sampleClip10 0] initialState).duration = 0 ∨
      (applyOps [TimelineOp.createTrack "t1" TrackType.video,
        TimelineOp.addSegment "t1" sampleClip10 0] initialState).duration ∈
        segmentEnds (applyOps [TimelineOp.createTrack "t1" TrackType.video,
        TimelineOp.addSegment "t1" sampleClip10 0] initialState).tracks) ∧
    0 ≤ (applyOps [TimelineOp.createTrack "t1" TrackType.video,
        TimelineOp.addSegment "t1" sampleClip10 0] initialState).duration :=
  timeline_duration_invariant
    [TimelineOp.createTrack "t1" TrackType.video, TimelineOp.addSegment "t1" sampleClip10 0]

/-- C1 counterexample: adding a segment at position `-10` with duration `2`
leaves a single segment end of `-8`, yet the stored duration is `0`, not the
claimed maximum `-8` of the segment ends. -/
theorem timeline_duration_counterexample :
    segmentEnds (applyOps [TimelineOp.createTrack "t1" TrackType.video,
        TimelineOp.addSegment "t1" sampleClip (-10)] initialState).tracks = [-8] ∧
    (applyOps [TimelineOp.createTrack "t1" TrackType.video,
        TimelineOp.addSegment "t1" sampleClip (-10)] initialState).duration = 0 ∧
    (0 : ℚ) ≠ -8 := by
  refine ⟨?_, ?_, by norm_num⟩ <;>
  norm_num [applyOps, applyOp, initialState, TimelineService.createTrack,
    TimelineService.addSegment, TimelineService.updateDuration,
    TimelineService.mkTimelineSegment, sampleClip, stableSortBy, insertByLe, posLe,
    segmentEnds]

/-! ### C2: the playhead range -/

/-- C2 (amended): `setPlayhead` stores the clamped value
`max(0, min(p, duration))`, so immediately after a `setPlayhead` call the
playhead lies in `[0, duration]` whenever the duration is nonnegative;
operations that shrink the duration do not re-clamp the stored playhead. -/
theorem setPlayhead_clamps (st : TimelineState) (p : ℚ) (h : 0 ≤ st.duration) :
    (TimelineService.setPlayhead p st).playhead = max 0 (min p st.duration) ∧
    0 ≤ (TimelineService.setPlayhead p st).playhead ∧
    (TimelineService.setPlayhead p st).playhead ≤ (TimelineService.setPlayhead p st).duration := by
  refine ⟨rfl, le_max_left _ _, ?_⟩
  simp only [TimelineService.setPlayhead]
  exact max_le h (min_le_right p st.duration)

/-- C2 witness: the clamp on the initial (empty) timeline. -/
theorem setPlayhead_clamps_witness :
    0 ≤ initialState.duration ∧
    ((TimelineService.setPlayhead 5 initialState).playhead
        = max 0 (min 5 initialState.duration) ∧
      0 ≤ (TimelineService.setPlayhead 5 initialState).playhead ∧
      (TimelineService.setPlayhead 5 initialState).playhead
        ≤ (TimelineService.setPlayhead 5 initialState).duration) :=
  ⟨by norm_num [initialState],
    setPlayhead_clamps initialState 5 (by norm_num [initialState])⟩

/-- The state reached by creating a track, adding a ten-second segment,
setting the playhead to 10 and then removing the segment. -/
def shrunkState : TimelineState :=
  TimelineService.removeSegment "t1" "c1"
    (TimelineService.setPlayhead 10
      (applyOps [TimelineOp.createTrack "t1" TrackType.video,
                 TimelineOp.addSegment "t1" sampleClip10 0] initialState))

/-- C2 counterexample: after `removeSegment` shrinks the duration to `0`, the
playhead is still `10`, outside the new `[0, duration]` range. -/
theorem playhead_range_counterexample :
    shrunkState.playhead = 10 ∧ shrunkState.duration = 0 ∧
    ¬ shrunkState.playhead ≤ shrunkState.duration := by
  have h : shrunkState.playhead = 10 ∧ shrunkState.duration = 0 := by
    constructor <;>
    norm_num [shrunkState, applyOps, applyOp, initialState, TimelineService.createTrack,
      TimelineService.addSegment, TimelineService.updateDuration,
      TimelineService.mkTimelineSegment, TimelineService.setPlayhead,
      TimelineService.removeSegment, TimelineService.removeSegInTracks,
      sampleClip10, stableSortBy, insertByLe, posLe, segmentEnds]
  exact ⟨h.1, h.2, by rw [h.1, h.2]; norm_num⟩

/-! ### C3: moving a locked segment -/

/-- Membership in an insertion step of the stable sort. -/
theorem mem_insertByLe {α : Type _} (le : α → α → Bool) (a x : α) (l : List α) :
    x ∈ insertByLe le a l ↔ x = a ∨ x ∈ l := by
  induction l with
  | nil => simp [insertByLe]
  | cons b bs ih =>
    simp only [insertByLe]
    split
    · simp only [List.mem_cons, ih]
      tauto
    · simp [List.mem_cons]

/-- The stable sort keeps exactly the same elements. -/
theorem mem_stableSortBy {α : Type _} (le : α → α → Bool) (x : α) (l : List α) :
    x ∈ stableSortBy le l ↔ x ∈ l := by
  have h : ∀ (l acc : List α),
      x ∈ l.foldl (fun acc a => insertByLe le a acc) acc ↔ x ∈ acc ∨ x ∈ l := by
    intro l
    induction l with
    | nil => simp
    | cons a as ih =>
      intro acc
      rw [List.foldl_cons, ih, mem_insertByLe]
      simp only [List.mem_cons]
      tauto
  simpa [stableSortBy] using h l []

/-- `setPosFirst` really moves the first matching segment to the new
position. -/
theorem setPosFirst_mem (sid : String) (p : ℚ) (l : List TimelineSegment)
    (s : TimelineSegment) (h : l.find? (fun x => x.id = sid) = some s) :
    { s with position := p } ∈ TimelineService.setPosFirst sid p l := by
  induction l with
  | nil => simp at h
  | cons a as ih =>
    by_cases ha : a.id = sid
    · rw [List.find?_cons_of_pos as (by simpa using ha)] at h
      injection h with h
      subst h
      simp [TimelineService.setPosFirst, ha]
    · rw [List.find?_cons_of_neg as (by simpa using ha)] at h
      simp only [TimelineService.setPosFirst, if_neg (by simpa using ha)]
      exact List.mem_cons_of_mem a (ih h)

/-- When the segment lookup succeeds, the track scan of `moveSegment`
reports a hit and its result contains the segment moved to the new
position. -/
theorem moveSegInTracks_mem (sid : String) (p : ℚ) (ts : List TimelineTrack)
    (s : TimelineSegment) (h : findSegInTracks sid ts = some s) :
    { s with position := p }
      ∈ (TimelineService.moveSegInTracks sid p ts).1.flatMap (fun t => t.segments) ∧
    (TimelineService.moveSegInTracks sid p ts).2 = true := by
  induction ts with
  | nil => simp [findSegInTracks] at h
  | cons t tr ih =>
    unfold findSegInTracks at h
    cases hf : t.segments.find? fun x => x.id = sid with
    | some s0 =>
      rw [hf] at h
      have hs : s0 = s := by injection h
      rw [hs] at hf
      have hp : decide (s.id = sid) = true :=
        @List.find?_some TimelineSegment (fun x => decide (x.id = sid)) s t.segments hf
      have hany : (t.segments.any fun x => x.id = sid) = true :=
        List.any_eq_true.mpr ⟨s, List.mem_of_find?_eq_some hf, hp⟩
      simp only [TimelineService.moveSegInTracks, hany, if_true, List.flatMap_cons]
      refine ⟨List.mem_append_left _ ?_, by trivial⟩
      rw [mem_stableSortBy]
      exact setPosFirst_mem sid p t.segments s hf
    | none =>
      rw [hf] at h
      have hany : (t.segments.any fun x => x.id = sid) = false := by
        rw [List.any_eq_false]
        exact List.find?_eq_none.mp hf
      obtain ⟨hm, hh⟩ := ih h
      rcases hrec : TimelineService.moveSegInTracks sid p tr with ⟨ts', hit⟩
      rw [hrec] at hm hh
      simp only [TimelineService.moveSegInTracks, hany, Bool.false_eq_true, if_false, hrec,
        List.flatMap_cons]
      exact ⟨List.mem_append_right _ hm, hh⟩

/-- C3 (amended): `moveSegment` never checks the `locked` flag.  In both
revisions, whenever the segment lookup finds a segment — locked or not — the
resulting state contains that segment moved: to `newPosition` as given in the
`BaseService` revision, and to `max(0, newPosition)` in the `EventEmitter`
revision.  No `SegmentLocked` rejection exists anywhere on this code path. -/
theorem moveSegment_ignores_locked (st : TimelineState) (sid : String) (p : ℚ)
    (s : TimelineSegment) (h : findSegInTracks sid st.tracks = some s) :
    { s with position := p } ∈ allSegments (TimelineService.moveSegment sid p st) ∧
    { s with position := max 0 p } ∈ allSegments (EmitterTimelineService.moveSegment sid p st) := by
  constructor
  · obtain ⟨hm, hh⟩ := moveSegInTracks_mem sid p st.tracks s h
    rcases hE : TimelineService.moveSegInTracks sid p st.tracks with ⟨ts', hit⟩
    rw [hE] at hm hh
    simp only at hm hh
    subst hh
    simp only [TimelineService.moveSegment, hE, if_true, allSegments,
      TimelineService.updateDuration]
    exact hm
  · obtain ⟨hm, hh⟩ := moveSegInTracks_mem sid (max 0 p) st.tracks s h
    rcases hE : TimelineService.moveSegInTracks sid (max 0 p) st.tracks with ⟨ts', hit⟩
    rw [hE] at hm hh
    simp only at hm hh
    subst hh
    simp only [EmitterTimelineService.moveSegment, hE, if_true, allSegments,
      TimelineService.updateDuration]
    exact hm

/-- C3 witness: the locked fixture segment is found and is moved by both
revisions. -/
theorem moveSegment_ignores_locked_witness :
    findSegInTracks "s1" lockedFixtureState.tracks = some lockedSeg ∧
    ({ lockedSeg with position := 7 }
        ∈ allSegments (TimelineService.moveSegment "s1" 7 lockedFixtureState) ∧
      { lockedSeg with position := max 0 7 }
        ∈ allSegments (EmitterTimelineService.moveSegment "s1" 7 lockedFixtureState)) :=
  ⟨by simp [findSegInTracks, lockedFixtureState, videoTrack, lockedSeg, initialState, List.find?],
    moveSegment_ignores_locked lockedFixtureState "s1" 7 lockedSeg
      (by simp [findSegInTracks, lockedFixtureState, videoTrack, lockedSeg, initialState,
        List.find?])⟩

/-- C3 counterexample: moving the locked segment `s1` to position `7`
succeeds — the state afterwards holds exactly that segment at position `7`,
so the move was neither rejected nor the position left unchanged. -/
theorem moveSegment_locked_counterexample :
    lockedSeg.locked = true ∧ lockedSeg.position = 0 ∧
    allSegments (TimelineService.moveSegment "s1" 7 lockedFixtureState)
      = [{ lockedSeg with position := 7 }] := by
  refine ⟨rfl, rfl, ?_⟩
  norm_num [allSegments, lockedFixtureState, videoTrack, lockedSeg, initialState,
    TimelineService.moveSegment, TimelineService.moveSegInTracks, TimelineService.setPosFirst,
    TimelineService.updateDuration, stableSortBy, insertByLe, posLe, segmentEnds]

/-! ### C4: updateEffectParameter -/

/-- `setValueFirst` replaces the first matching parameter's value and keeps
it findable under the same id. -/
theorem setValueFirst_find (pid : String) (v : Value) (ps : List EffectParameter)
    (p : EffectParameter) (h : ps.find? (fun x => x.id = pid) = some p) :
    (TimelineService.setValueFirst pid v ps).find? (fun x => x.id = pid)
      = some { p with value := v } := by
  induction ps with
  | nil => simp at h
  | cons a as ih =>
    by_cases ha : a.id = pid
    · rw [List.find?_cons_of_pos as (by simpa using ha)] at h
      have hs : a = p := by injection h
      subst hs
      simp only [TimelineService.setValueFirst, if_pos ha]
      exact List.find?_cons_of_pos _ (by simpa using ha)
    · rw [List.find?_cons_of_neg as (by simpa using ha)] at h
      simp only [TimelineService.setValueFirst, if_neg ha]
      rw [List.find?_cons_of_neg _ (by simpa using ha)]
      exact ih h

/-- `mapFirstEffect` with an id-preserving `f` rewrites exactly the first
matching effect. -/
theorem mapFirstEffect_find (f : TimelineEffect → TimelineEffect) (eid : String)
    (hf : ∀ e, (f e).id = e.id) (es : List TimelineEffect) (e : TimelineEffect)
    (h : es.find? (fun x => x.id = eid) = some e) :
    (TimelineService.mapFirstEffect f eid es).find? (fun x => x.id = eid) = some (f e) := by
  induction es with
  | nil => simp at h
  | cons a as ih =>
    by_cases ha : a.id = eid
    · rw [List.find?_cons_of_pos as (by simpa using ha)] at h
      have hs : a = e := by injection h
      subst hs
      simp only [TimelineService.mapFirstEffect, if_pos ha]
      exact List.find?_cons_of_pos _ (by simp [hf, ha])
    · rw [List.find?_cons_of_neg as (by simpa using ha)] at h
      simp only [TimelineService.mapFirstEffect, if_neg ha]
      rw [List.find?_cons_of_neg _ (by simpa using ha)]
      exact ih h

/-- A failed effect lookup means the segment scan reports no hit. -/
theorem updateEffectInSegs_miss (f : TimelineEffect → TimelineEffect) (eid : String)
    (ss : List TimelineSegment) (h : findEffectInSegs eid ss = none) :
    (TimelineService.updateEffectInSegs f eid ss).2 = false := by
  induction ss with
  | nil => simp [TimelineService.updateEffectInSegs]
  | cons s rest ih =>
    unfold findEffectInSegs at h
    cases hfind : s.effects.find? fun x => x.id = eid with
    | some e0 => rw [hfind] at h; exact absurd h (by simp)
    | none =>
      rw [hfind] at h
      have hany : (s.effects.any fun x => x.id = eid) = false := by
        rw [List.any_eq_false]
        exact List.find?_eq_none.mp hfind
      rcases hrec : TimelineService.updateEffectInSegs f eid rest with ⟨ss', hit⟩
      have hres := ih h
      rw [hrec] at hres
      simp only [TimelineService.updateEffectInSegs, hany, Bool.false_eq_true, if_false, hrec]
      exact hres

/-- A successful effect lookup: the segment scan reports a hit and afterwards
the same lookup finds the rewritten effect. -/
theorem updateEffectInSegs_find (f : TimelineEffect → TimelineEffect) (eid : String)
    (hf : ∀ e, (f e).id = e.id) (ss : List TimelineSegment) (e : TimelineEffect)
    (h : findEffectInSegs eid ss = some e) :
    findEffectInSegs eid (TimelineService.updateEffectInSegs f eid ss).1 = some (f e) ∧
    (TimelineService.updateEffectInSegs f eid ss).2 = true := by
  induction ss with
  | nil => simp [findEffectInSegs] at h
  | cons s rest ih =>
    unfold findEffectInSegs at h
    cases hfind : s.effects.find? fun x => x.id = eid with
    | some e0 =>
      rw [hfind] at h
      have hs : e0 = e := by injection h
      rw [hs] at hfind
      have hp : decide (e.id = eid) = true :=
        @List.find?_some TimelineEffect (fun x => decide (x.id = eid)) e s.effects hfind
      have hany : (s.effects.any fun x => x.id = eid) = true :=
        List.any_eq_true.mpr ⟨e, List.mem_of_find?_eq_some hfind, hp⟩
      simp only [TimelineService.updateEffectInSegs, hany, if_true]
      constructor
      · unfold findEffectInSegs
        rw [mapFirstEffect_find f eid hf s.effects e hfind]
      · trivial
    | none =>
      rw [hfind] at h
      have hany : (s.effects.any fun x => x.id = eid) = false := by
        rw [List.any_eq_false]
        exact List.find?_eq_none.mp hfind
      obtain ⟨hm, hh⟩ := ih h
      rcases hrec : TimelineService.updateEffectInSegs f eid rest with ⟨ss', hit⟩
      rw [hrec] at hm hh
      simp only [TimelineService.updateEffectInSegs, hany, Bool.false_eq_true, if_false, hrec]
      constructor
      · unfold findEffectInSegs
        rw [hfind]
        exact hm
      · exact hh

/-- Track-level version of the previous lemma. -/
theorem updateEffectInTracks_find (f : TimelineEffect → TimelineEffect) (eid : String)
    (hf : ∀ e, (f e).id = e.id) (ts : List TimelineTrack) (e : TimelineEffect)
    (h : findEffectInTracks eid ts = some e) :
    findEffectInTracks eid (TimelineService.updateEffectInTracks f eid ts).1 = some (f e) ∧
    (TimelineService.updateEffectInTracks f eid ts).2 = true := by
  induction ts with
  | nil => simp [findEffectInTracks] at h
  | cons t tr ih =>
    unfold findEffectInTracks at h
    cases hfs : findEffectInSegs eid t.segments with
    | some e0 =>
      rw [hfs] at h
      have hs : e0 = e := by injection h
      rw [hs] at hfs
      obtain ⟨hm, hh⟩ := updateEffectInSegs_find f eid hf t.segments e hfs
      rcases hsegs : TimelineService.updateEffectInSegs f eid t.segments with ⟨segs, hit⟩
      rw [hsegs] at hm hh
      simp only at hm hh
      subst hh
      simp only [TimelineService.updateEffectInTracks, hsegs, if_true]
      constructor
      · unfold findEffectInTracks
        simp only
        rw [hm]
      · trivial
    | none =>
      rw [hfs] at h
      have hmiss := updateEffectInSegs_miss f eid t.segments hfs
      rcases hsegs : TimelineService.updateEffectInSegs f eid t.segments with ⟨segs, hit⟩
      rw [hsegs] at hmiss
      simp only at hmiss
      subst hmiss
      obtain ⟨hm, hh⟩ := ih h
      rcases hrec : TimelineService.updateEffectInTracks f eid tr with ⟨ts', hit'⟩
      rw [hrec] at hm hh
      simp only [TimelineService.updateEffectInTracks, hsegs, Bool.false_eq_true, if_false, hrec]
      constructor
      · unfold findEffectInTracks
        rw [hfs]
        exact hm
      · exact hh

/-- C4 (amended): `updateEffectParameter(effectId, parameterId, value)` stores
`value` into the addressed parameter exactly as given, for every value and
every parameter — there is no type check against the parameter's declared
kind, and a numeric value outside `[min, max]` is not clamped even when both
bounds are set. -/
theorem updateEffectParameter_stores_verbatim (st : TimelineState)
    (eid pid : String) (v : Value) (p : EffectParameter)
    (h : findFirstParam eid pid st = some p) :
    findFirstParam eid pid (TimelineService.updateEffectParameter eid pid v st)
      = some { p with value := v } := by
  rcases hbind : findEffectInTracks eid st.tracks with _ | e
  · rw [findFirstParam, hbind] at h
    simp at h
  · rw [findFirstParam, hbind] at h
    simp only [Option.some_bind] at h
    obtain ⟨hm, hh⟩ := updateEffectInTracks_find
      (fun e => { e with parameters := TimelineService.setValueFirst pid v e.parameters })
      eid (fun e => rfl) st.tracks e hbind
    rcases hE : TimelineService.updateEffectInTracks
      (fun e => { e with parameters := TimelineService.setValueFirst pid v e.parameters })
      eid st.tracks with ⟨ts', hit⟩
    rw [hE] at hm hh
    simp only at hm hh
    subst hh
    simp only [TimelineService.updateEffectParameter, hE, if_true]
    rw [findFirstParam]
    simp only [hm, Option.some_bind]
    exact setValueFirst_find pid v e.parameters p h

/-- A number-typed opacity parameter with bounds `[0, 1]`. -/
def numParam : EffectParameter :=
  { id := "p1", name := "opacity", type := .number, value := .num 0, default := .num 0
    min := some 0, max := some 1, keyframes := [] }

/-- A fade effect carrying `numParam`. -/
def fadeEffect : TimelineEffect :=
  { id := "e1", type := "fade", name := "Fade", startTime := 0, endTime := 5
    parameters := [numParam], enabled := true }

/-- A segment carrying `fadeEffect`. -/
def effSeg : TimelineSegment :=
  { id := "s1", filePath := "clip.mp4", startTime := 0, endTime := 5, trackId := "t1"
    position := 0, duration := 5, selected := false, locked := false, effects := [fadeEffect] }

/-- A state whose single segment carries the fade effect. -/
def effState : TimelineState :=
  { initialState with tracks := [videoTrack [effSeg]] }

/-- C4 counterexample: updating the `[0, 1]`-bounded numeric parameter with
the value `5` stores `5`, not the clamped `1` the claim requires. -/
theorem updateEffectParameter_counterexample :
    numParam.type = ParamType.number ∧ numParam.min = some 0 ∧ numParam.max = some 1 ∧
    findFirstParam "e1" "p1" (TimelineService.updateEffectParameter "e1" "p1" (.num 5) effState)
      = some { numParam with value := .num 5 } ∧
    ¬ ((5 : ℚ) ≤ 1) := by
  refine ⟨rfl, rfl, rfl, ?_, by norm_num⟩
  simp [findFirstParam, findEffectInTracks, findEffectInSegs, effState, videoTrack, effSeg,
    fadeEffect, numParam, initialState, List.find?, TimelineService.updateEffectParameter,
    TimelineService.updateEffectInTracks, TimelineService.updateEffectInSegs,
    TimelineService.mapFirstEffect, TimelineService.setValueFirst]

/-- C4 witness: even a string is stored into the number-typed parameter. -/
theorem updateEffectParameter_stores_verbatim_witness :
    findFirstParam "e1" "p1" effState = some numParam ∧
    findFirstParam "e1" "p1" (TimelineService.updateEffectParameter "e1" "p1" (.str "red") effState)
      = some { numParam with value := .str "red" } :=
  ⟨by simp [findFirstParam, findEffectInTracks, findEffectInSegs, effState, videoTrack, effSeg,
      fadeEffect, numParam, initialState, List.find?],
    updateEffectParameter_stores_verbatim effState "e1" "p1" (.str "red") numParam
      (by simp [findFirstParam, findEffectInTracks, findEffectInSegs, effState, videoTrack,
        effSeg, fadeEffect, numParam, initialState, List.find?])⟩

/-! ### C5: getSegmentsAtTime uses a half-open interval -/

/-- C5: a segment is returned by `getSegmentsAtTime(time)` exactly when it
lies on some track and `position <= time < position + duration` — the
half-open interval contains its start time and excludes its end time. -/
theorem getSegmentsAtTime_halfOpen (st : TimelineState) (s : TimelineSegment) (t : ℚ) :
    s ∈ TimelineService.getSegmentsAtTime st t ↔
      (∃ tr ∈ st.tracks, s ∈ tr.segments) ∧
      s.position ≤ t ∧ t < s.position + s.duration := by
  simp only [TimelineService.getSegmentsAtTime, List.mem_flatMap, List.mem_filter,
    decide_eq_true_eq]
  tauto

/-! ### C6: evaluation with zero keyframes -/

/-- C6 (amended): with an empty keyframe list the evaluator returns
`undefined` (`none`) at every time — it receives only the keyframe list and
never consults the parameter's static `value`. -/
theorem interpolateValue_empty (t : ℚ) : interpolateValue [] t = none := rfl

/-- A number-typed parameter with static value `7` and no keyframes. -/
def staticParam : EffectParameter :=
  { id := "p2", name := "level", type := .number, value := .num 7, default := .num 0
    min := none, max := none, keyframes := [] }

/-- C6 counterexample: a parameter with zero keyframes and static value `7`
evaluates to `undefined` (`none`), not to its static value `7`. -/
theorem interpolateValue_empty_counterexample :
    staticParam.keyframes = [] ∧
    interpolateValue staticParam.keyframes 3 = none ∧
    (none : Option Value) ≠ some staticParam.value :=
  ⟨rfl, rfl, by simp⟩

/-! ### C7: the snap resolver -/

/-- Invariant of the `snapPoints.forEach` minimum-search loop: either no
visited point improved on the initial distance bound, or the accumulator
holds a visited point of minimal distance below the bound. -/
theorem snapFold_spec (time : ℚ) (l : List ℚ) : ∀ d x : ℚ,
    (l.foldl (snapStep time) (d, x) = (d, x) ∧ ∀ p ∈ l, d ≤ |p - time|) ∨
    ((l.foldl (snapStep time) (d, x)).2 ∈ l ∧
      (l.foldl (snapStep time) (d, x)).1 = |(l.foldl (snapStep time) (d, x)).2 - time| ∧
      (l.foldl (snapStep time) (d, x)).1 < d ∧
      ∀ p ∈ l, (l.foldl (snapStep time) (d, x)).1 ≤ |p - time|) := by
  induction l with
  | nil =>
    intro d x
    left
    exact ⟨rfl, by simp⟩
  | cons q l ih =>
    intro d x
    rw [List.foldl_cons]
    by_cases hq : |q - time| < d
    · have hstep : snapStep time (d, x) q = (|q - time|, q) := by simp [snapStep, hq]
      rw [hstep]
      rcases ih (|q - time|) q with ⟨heq, hall⟩ | ⟨hmem, heq, hlt, hall⟩
      · right
        rw [heq]
        refine ⟨List.mem_cons_self q l, rfl, hq, ?_⟩
        intro p hp
        rcases List.mem_cons.mp hp with rfl | hp
        · exact le_refl _
        · exact hall p hp
      · right
        refine ⟨List.mem_cons_of_mem q hmem, heq, lt_trans hlt hq, ?_⟩
        intro p hp
        rcases List.mem_cons.mp hp with rfl | hp
        · exact le_of_lt hlt
        · exact hall p hp
    · have hstep : snapStep time (d, x) q = (d, x) := by simp [snapStep, hq]
      rw [hstep]
      rcases ih d x with ⟨heq, hall⟩ | ⟨hmem, heq, hlt, hall⟩
      · left
        refine ⟨heq, ?_⟩
        intro p hp
        rcases List.mem_cons.mp hp with rfl | hp
        · exact not_lt.mp hq
        · exact hall p hp
      · right
        refine ⟨List.mem_cons_of_mem q hmem, heq, hlt, ?_⟩
        intro p hp
        rcases List.mem_cons.mp hp with rfl | hp
        · exact le_of_lt (lt_of_lt_of_le hlt (not_lt.mp hq))
        · exact hall p hp

/-- C7 (amended): with snapping enabled, the resolver either returns the
candidate unchanged because no snap point lies strictly within the
tolerance, or it returns a snap point of minimal distance, strictly within
the tolerance, from the set built of every segment's `position` and
`position + duration`, the playhead, and the in/out points *when set and
nonzero* (a point set to `0` is falsy in JavaScript and is skipped). -/
theorem findNearestSnapPoint_spec (st : TimelineState) (time : ℚ)
    (h : st.snapEnabled = true) :
    (findNearestSnapPoint st time = time ∧
      ∀ p ∈ snapPointsOf st, snapToleranceSeconds st ≤ |p - time|) ∨
    (findNearestSnapPoint st time ∈ snapPointsOf st ∧
      |findNearestSnapPoint st time - time| < snapToleranceSeconds st ∧
      ∀ p ∈ snapPointsOf st, |findNearestSnapPoint st time - time| ≤ |p - time|) := by
  have hfd := snapFold_spec time (snapPointsOf st) (snapToleranceSeconds st) time
  rw [findNearestSnapPoint, if_pos h]
  rcases hfd with ⟨heq, hall⟩ | ⟨hmem, heq, hlt, hall⟩
  · left
    rw [heq]
    exact ⟨rfl, hall⟩
  · right
    exact ⟨hmem, heq ▸ hlt, fun p hp => heq ▸ hall p hp⟩

/-- An empty timeline whose playhead is at `100` and whose in point is `0`. -/
def snapZeroState : TimelineState := { initialState with playhead := 100, inPoint := some 0 }

/-- C7 counterexample: with `inPoint = 0` set and the candidate `1/20` within
tolerance (`1/10`) of `0`, the claim requires snapping to `0`; the resolver
skips the falsy `0` and returns the candidate unchanged. -/
theorem snap_zero_inPoint_counterexample :
    snapZeroState.inPoint = some 0 ∧
    |(0 : ℚ) - 1/20| < snapToleranceSeconds snapZeroState ∧
    findNearestSnapPoint snapZeroState (1/20) = 1/20 ∧
    (1/20 : ℚ) ≠ 0 := by
  have habs : |(0 : ℚ) - 1/20| = 1/20 := by
    rw [zero_sub, abs_neg, abs_of_nonneg]
    norm_num
  have htol : snapToleranceSeconds snapZeroState = 1/10 := by
    norm_num [snapToleranceSeconds, snapZeroState, initialState]
  have hfar : ¬ (|(100 : ℚ) - 1/20| < 1/10) := by
    rw [abs_of_nonneg (by norm_num)]
    norm_num
  refine ⟨rfl, by rw [habs, htol]; norm_num, ?_, by norm_num⟩
  rw [findNearestSnapPoint, if_pos (show snapZeroState.snapEnabled = true from rfl)]
  have hpts : snapPointsOf snapZeroState = [100] := by
    norm_num [snapPointsOf, snapZeroState, initialState, truthyPoint]
  rw [hpts, htol]
  simp only [List.foldl_cons, List.foldl_nil, snapStep]
  rw [if_neg hfar]

/-- C7 witness: the resolver specification instantiated on the concrete
fixture state. -/
theorem findNearestSnapPoint_spec_witness :
    snapZeroState.snapEnabled = true ∧
    ((findNearestSnapPoint snapZeroState (1/20) = 1/20 ∧
        ∀ p ∈ snapPointsOf snapZeroState, snapToleranceSeconds snapZeroState ≤ |p - 1/20|) ∨
      (findNearestSnapPoint snapZeroState (1/20) ∈ snapPointsOf snapZeroState ∧
        |findNearestSnapPoint snapZeroState (1/20) - 1/20| < snapToleranceSeconds snapZeroState ∧
        ∀ p ∈ snapPointsOf snapZeroState,
          |findNearestSnapPoint snapZeroState (1/20) - 1/20| ≤ |p - 1/20|)) :=
  ⟨rfl, findNearestSnapPoint_spec snapZeroState (1/20) rfl⟩

/-! ### C8: duplicate-time keyframes -/

/-- C8 (amended): inserting two keyframes with the same time `2` via
`addEffectKeyframe` keeps them in insertion order (stable sort), and
evaluating at exactly that time returns the value of the *latest*-inserted of
the equal-time keyframes, for every pair of values. -/
theorem addEffectKeyframe_duplicate_latest (a b : ℚ) :
    keyframesOf "e1" "p1"
        (TimelineService.addEffectKeyframe "e1" "p1" 2 (.num b) "k2"
          (TimelineService.addEffectKeyframe "e1" "p1" 2 (.num a) "k1" effState))
      = some [{ id := "k1", time := 2, value := .num a, easing := .linear },
              { id := "k2", time := 2, value := .num b, easing := .linear }] ∧
    interpolateValue
        [{ id := "k1", time := 2, value := .num a, easing := .linear },
         { id := "k2", time := 2, value := .num b, easing := .linear }] 2
      = some (.num b) := by
  constructor <;> rfl

/-- C8 counterexample: duplicate-time keyframes with values `10` (inserted
first) and `20` (inserted second) evaluate at their shared time `2` to `20`,
the latest-inserted value, not the earliest-inserted `10`. -/
theorem addEffectKeyframe_duplicate_counterexample :
    keyframesOf "e1" "p1"
        (TimelineService.addEffectKeyframe "e1" "p1" 2 (.num 20) "k2"
          (TimelineService.addEffectKeyframe "e1" "p1" 2 (.num 10) "k1" effState))
      = some [{ id := "k1", time := 2, value := .num 10, easing := .linear },
              { id := "k2", time := 2, value := .num 20, easing := .linear }] ∧
    interpolateValue
        [{ id := "k1", time := 2, value := .num 10, easing := .linear },
         { id := "k2", time := 2, value := .num 20, easing := .linear }] 2
      = some (.num 20) ∧
    Value.num 20 ≠ Value.num 10 := by
  refine ⟨rfl, rfl, by simp⟩

/-! ### C9: setSelection -/

/-- A five-second unlocked, unselected segment with id `seg1`. -/
def sel1Seg : TimelineSegment :=
  { id := "seg1", filePath := "clip.mp4", startTime := 0, endTime := 5, trackId := "t1"
    position := 0, duration := 5, selected := false, locked := false, effects := [] }

/-- A state holding just `sel1Seg`. -/
def selState : TimelineState :=
  { initialState with tracks := [videoTrack [sel1Seg]] }

/-- C9 counterexample: in the `BaseService` revision,
`setSelection(['seg1'])` stores the selection but leaves segment `seg1` with
`selected = false`, contradicting the claim that it is marked `true`. -/
theorem setSelection_counterexample :
    (TimelineService.setSelection ["seg1"] selState).selection = ["seg1"] ∧
    allSegments (TimelineService.setSelection ["seg1"] selState) = [sel1Seg] ∧
    sel1Seg.selected = false :=
  ⟨rfl, rfl, rfl⟩

/-- C9 (amended): both revisions replace the stored `selection` with the
argument; the `EventEmitter` revision additionally sets every segment's
`selected` flag to whether its id is in the list, while the `BaseService`
revision leaves the tracks — and hence every `selected` flag — completely
unchanged. -/
theorem setSelection_spec (st : TimelineState) (ids : List String) :
    (TimelineService.setSelection ids st).selection = ids ∧
    (TimelineService.setSelection ids st).tracks = st.tracks ∧
    (EmitterTimelineService.setSelection ids st).selection = ids ∧
    (EmitterTimelineService.setSelection ids st).tracks
      = st.tracks.map fun t =>
          { t with segments := t.segments.map fun s =>
              { s with selected := ids.contains s.id } } := by
  refine ⟨rfl, rfl, rfl, ?_⟩
  simp only [EmitterTimelineService.setSelection, EmitterTimelineService.markSelectedFlags,
    EmitterTimelineService.clearSelectedFlags, List.map_map]
  apply List.map_congr_left
  intro t _
  simp only [Function.comp]
  congr 1
  rw [List.map_map]
  apply List.map_congr_left
  intro s _
  simp only [Function.comp]
  by_cases h : ids.contains s.id
  · rw [if_pos h, h]
  · rw [if_neg h, Bool.not_eq_true] at *
    rw [h]

/-! ### C10: keyframes created by addEffectKeyframe are linear -/

/-- The keyframes stored under one effect. -/
def kfsOfEffect (e : TimelineEffect) : List Keyframe :=
  e.parameters.flatMap fun p => p.keyframes

/-- The keyframes stored under one segment. -/
def kfsOfSeg (s : TimelineSegment) : List Keyframe :=
  s.effects.flatMap kfsOfEffect

/-- The keyframes stored under one track. -/
def kfsOfTrack (t : TimelineTrack) : List Keyframe :=
  t.segments.flatMap kfsOfSeg

/-- `addKfFirst` only ever adds the keyframe it is given. -/
theorem addKfFirst_kfs (pid : String) (kf : Keyframe) (ps : List EffectParameter)
    (k : Keyframe) (h : k ∈ (TimelineService.addKfFirst pid kf ps).flatMap fun p => p.keyframes) :
    k ∈ ps.flatMap (fun p => p.keyframes) ∨ k = kf := by
  induction ps with
  | nil => simp [TimelineService.addKfFirst] at h
  | cons p rest ih =>
    by_cases hp : p.id = pid
    · rw [TimelineService.addKfFirst, if_pos hp, List.flatMap_cons] at h
      rcases List.mem_append.mp h with hh | hh
      · simp only at hh
        rw [mem_stableSortBy] at hh
        rcases List.mem_append.mp hh with hh | hh
        · exact Or.inl (by rw [List.flatMap_cons]; exact List.mem_append_left _ hh)
        · exact Or.inr (List.mem_singleton.mp hh)
      · exact Or.inl (by rw [List.flatMap_cons]; exact List.mem_append_right _ hh)
    · rw [TimelineService.addKfFirst, if_neg hp, List.flatMap_cons] at h
      rcases List.mem_append.mp h with hh | hh
      · exact Or.inl (by rw [List.flatMap_cons]; exact List.mem_append_left _ hh)
      · rcases ih hh with hh' | hh'
        · exact Or.inl (by rw [List.flatMap_cons]; exact List.mem_append_right _ hh')
        · exact Or.inr hh'

/-- `mapFirstEffect` only ever adds the keyframe its rewriting function
adds. -/
theorem mapFirstEffect_kfs (f : TimelineEffect → TimelineEffect) (eid : String) (kf : Keyframe)
    (hf : ∀ e k, k ∈ kfsOfEffect (f e) → k ∈ kfsOfEffect e ∨ k = kf)
    (es : List TimelineEffect) (k : Keyframe)
    (h : k ∈ (TimelineService.mapFirstEffect f eid es).flatMap kfsOfEffect) :
    k ∈ es.flatMap kfsOfEffect ∨ k = kf := by
  induction es with
  | nil => simp [TimelineService.mapFirstEffect] at h
  | cons e rest ih =>
    by_cases he : e.id = eid
    · rw [TimelineService.mapFirstEffect, if_pos he, List.flatMap_cons] at h
      rcases List.mem_append.mp h with hh | hh
      · rcases hf e k hh with hh' | hh'
        · exact Or.inl (by rw [List.flatMap_cons]; exact List.mem_append_left _ hh')
        · exact Or.inr hh'
      · exact Or.inl (by rw [List.flatMap_cons]; exact List.mem_append_right _ hh)
    · rw [TimelineService.mapFirstEffect, if_neg he, List.flatMap_cons] at h
      rcases List.mem_append.mp h with hh | hh
      · exact Or.inl (by rw [List.flatMap_cons]; exact List.mem_append_left _ hh)
      · rcases ih hh with hh' | hh'
        · exact Or.inl (by rw [List.flatMap_cons]; exact List.mem_append_right _ hh')
        · exact Or.inr hh'

/-- Segment-level version of the previous lemma. -/
theorem updateEffectInSegs_kfs (f : TimelineEffect → TimelineEffect) (eid : String) (kf : Keyframe)
    (hf : ∀ e k, k ∈ kfsOfEffect (f e) → k ∈ kfsOfEffect e ∨ k = kf)
    (ss : List TimelineSegment) (k : Keyframe)
    (h : k ∈ (TimelineService.updateEffectInSegs f eid ss).1.flatMap kfsOfSeg) :
    k ∈ ss.flatMap kfsOfSeg ∨ k = kf := by
  induction ss with
  | nil => simp [TimelineService.updateEffectInSegs] at h
  | cons s rest ih =>
    by_cases hs : (s.effects.any fun e => e.id = eid) = true
    · rw [TimelineService.updateEffectInSegs] at h
      rw [if_pos hs] at h
      rw [List.flatMap_cons] at h
      rcases List.mem_append.mp h with hh | hh
      · rcases mapFirstEffect_kfs f eid kf hf s.effects k hh with hh' | hh'
        · exact Or.inl (by rw [List.flatMap_cons]; exact List.mem_append_left _ hh')
        · exact Or.inr hh'
      · exact Or.inl (by rw [List.flatMap_cons]; exact List.mem_append_right _ hh)
    · rw [TimelineService.updateEffectInSegs] at h
      rw [if_neg hs] at h
      rcases hrec : TimelineService.updateEffectInSegs f eid rest with ⟨ss', hit⟩
      rw [hrec] at h ih
      rw [List.flatMap_cons] at h
      rcases List.mem_append.mp h with hh | hh
      · exact Or.inl (by rw [List.flatMap_cons]; exact List.mem_append_left _ hh)
      · rcases ih hh with hh' | hh'
        · exact Or.inl (by rw [List.flatMap_cons]; exact List.mem_append_right _ hh')
        · exact Or.inr hh'

/-- Track-level version of the previous lemma. -/
theorem updateEffectInTracks_kfs (f : TimelineEffect → TimelineEffect) (eid : String) (kf : Keyframe)
    (hf : ∀ e k, k ∈ kfsOfEffect (f e) → k ∈ kfsOfEffect e ∨ k = kf)
    (ts : List TimelineTrack) (k : Keyframe)
    (h : k ∈ (TimelineService.updateEffectInTracks f eid ts).1.flatMap kfsOfTrack) :
    k ∈ ts.flatMap kfsOfTrack ∨ k = kf := by
  induction ts with
  | nil => simp [TimelineService.updateEffectInTracks] at h
  | cons t rest ih =>
    rcases hsegs : TimelineService.updateEffectInSegs f eid t.segments with ⟨segs, hit⟩
    cases hit with
    | true =>
      rw [TimelineService.updateEffectInTracks, hsegs] at h
      simp only [if_true] at h
      rw [List.flatMap_cons] at h
      rcases List.mem_append.mp h with hh | hh
      · have hh2 : k ∈ (TimelineService.updateEffectInSegs f eid t.segments).1.flatMap kfsOfSeg := by
          rw [hsegs]
          exact hh
        rcases updateEffectInSegs_kfs f eid kf hf t.segments k hh2 with hh' | hh'
        · exact Or.inl (by rw [List.flatMap_cons]; exact List.mem_append_left _ hh')
        · exact Or.inr hh'
      · exact Or.inl (by rw [List.flatMap_cons]; exact List.mem_append_right _ hh)
    | false =>
      rw [TimelineService.updateEffectInTracks, hsegs] at h
      simp only [Bool.false_eq_true, if_false] at h
      rcases hrec : TimelineService.updateEffectInTracks f eid rest with ⟨ts', hit'⟩
      rw [hrec] at h ih
      rw [List.flatMap_cons] at h
      rcases List.mem_append.mp h with hh | hh
      · exact Or.inl (by rw [List.flatMap_cons]; exact List.mem_append_left _ hh)
      · rcases ih hh with hh' | hh'
        · exact Or.inl (by rw [List.flatMap_cons]; exact List.mem_append_right _ hh')
        · exact Or.inr hh'

/-- C10: every keyframe present after `addEffectKeyframe(effectId,
parameterId, time, value)` was either already present before the call or has
`easing = 'linear'` — the operation never creates a keyframe with the
`easeIn`, `easeOut`, `easeInOut` or `bezier` mode, regardless of its
arguments. -/
theorem addEffectKeyframe_easing_linear (st : TimelineState) (eid pid : String)
    (time : ℚ) (v : Value) (kid : String) (k : Keyframe)
    (h : k ∈ allKeyframes (TimelineService.addEffectKeyframe eid pid time v kid st)) :
    k ∈ allKeyframes st ∨ k.easing = Easing.linear := by
  simp only [TimelineService.addEffectKeyframe] at h
  rcases hE : TimelineService.updateEffectInTracks
      (fun e => { e with parameters := TimelineService.addKfFirst pid ⟨kid, time, v, Easing.linear⟩ e.parameters })
      eid st.tracks with ⟨ts', hit⟩
  rw [hE] at h
  cases hit with
  | false =>
    simp only [Bool.false_eq_true, if_false] at h
    exact Or.inl h
  | true =>
    simp only [if_true] at h
    have hf : ∀ e k',
        k' ∈ kfsOfEffect
          ((fun e => { e with parameters := TimelineService.addKfFirst pid ⟨kid, time, v, Easing.linear⟩ e.parameters }) e) →
        k' ∈ kfsOfEffect e ∨ k' = (⟨kid, time, v, Easing.linear⟩ : Keyframe) := by
      intro e k' hk'
      exact addKfFirst_kfs pid _ e.parameters k' hk'
    have h2 : k ∈ (TimelineService.updateEffectInTracks
        (fun e => { e with parameters := TimelineService.addKfFirst pid ⟨kid, time, v, Easing.linear⟩ e.parameters })
        eid st.tracks).1.flatMap kfsOfTrack := by
      rw [hE]
      exact h
    rcases updateEffectInTracks_kfs _ eid _ hf st.tracks k h2 with hh | hh
    · exact Or.inl hh
    · exact Or.inr (by rw [hh])

/-- C10 witness: the keyframe created on the fixture state is new and
linear. -/
theorem addEffectKeyframe_easing_linear_witness :
    (({ id := "k1", time := 2, value := Value.num 10, easing := Easing.linear } : Keyframe)
        ∈ allKeyframes (TimelineService.addEffectKeyframe "e1" "p1" 2 (Value.num 10) "k1" effState)) ∧
    (({ id := "k1", time := 2, value := Value.num 10, easing := Easing.linear } : Keyframe)
        ∈ allKeyframes effState ∨
      ({ id := "k1", time := 2, value := Value.num 10, easing := Easing.linear } : Keyframe).easing
        = Easing.linear) := by
  have hlist : allKeyframes (TimelineService.addEffectKeyframe "e1" "p1" 2 (Value.num 10) "k1" effState)
      = [{ id := "k1", time := 2, value := Value.num 10, easing := Easing.linear }] := rfl
  have hmem : ({ id := "k1", time := 2, value := Value.num 10, easing := Easing.linear } : Keyframe)
      ∈ allKeyframes (TimelineService.addEffectKeyframe "e1" "p1" 2 (Value.num 10) "k1" effState) := by
    rw [hlist]
    exact List.mem_singleton.mpr rfl
  exact ⟨hmem, addEffectKeyframe_easing_linear effState "e1" "p1" 2 (Value.num 10) "k1" _ hmem⟩
